import Mathlib

/-!
Shallow embedding of the synthetic-workload engine of perfrunner:
the reservoir sampler (`src/spring/reservoir.py`) and the key generators and
document synthesizers (`src/spring/docgen.py`), together with proofs about
them.  Text values are modelled as `List Char`, Python integers as `Nat` or
`Int` following the value ranges of the source, and every read of the global
random source is passed in explicitly (as an argument or as a stream of
draws), so that all definitions are executable.
-/

namespace Spring

/-- PRIME = 971, the fixed odd prime of src/spring/docgen.py. -/
def PRIME : Nat := 971

namespace Reservoir

/-- Reservoir.MAX_CAPACITY = 10 ** 5 (src/spring/reservoir.py). -/
def MAX_CAPACITY : Nat := 10 ^ 5

/-- One stored measurement: the (operation, timestamp, value) triple that
Reservoir.update stores.  The measured value is an integer stand-in for the
Python float; update only ever compares it with zero. -/
structure Sample where
  operation : List Char
  timestamp : Nat
  value : Int
deriving DecidableEq

/-- The mutable state of a Reservoir: capacity, values, count
(Reservoir.__init__ fields). -/
structure State where
  capacity : Nat
  values : List Sample
  count : Nat
deriving DecidableEq

/-- Reservoir.__init__(num_workers): capacity = MAX_CAPACITY // num_workers,
values = [], count = 0. -/
def init (num_workers : Nat) : State :=
  { capacity := MAX_CAPACITY / num_workers, values := [], count := 0 }

/-- The arguments of one Reservoir.update call together with the two
environment reads the call makes: the nanosecond timestamp and the draw
r = int(count * random.random()). -/
structure Event where
  operation : List Char
  value : Int
  timestamp : Nat
  r : Nat
deriving DecidableEq

/-- Reservoir.update: a zero value is ignored; otherwise count is incremented
and the sample is appended while below capacity, else slot r is overwritten
if r < capacity. -/
def update (s : State) (e : Event) : State :=
  if e.value = 0 then s
  else
    if s.values.length < s.capacity then
      { s with count := s.count + 1,
               values := s.values ++ [⟨e.operation, e.timestamp, e.value⟩] }
    else if e.r < s.capacity then
      { s with count := s.count + 1,
               values := s.values.set e.r ⟨e.operation, e.timestamp, e.value⟩ }
    else { s with count := s.count + 1 }

/-- A fresh reservoir fed a whole sequence of update calls. -/
def run (num_workers : Nat) (events : List Event) : State :=
  events.foldl update (init num_workers)

end Reservoir

/-- Python range(start, stop, step) for a positive step, as the list of its
elements: start + k*step for every k below ceil((stop - start) / step). -/
def pyRange (start stop step : Nat) : List Nat :=
  (List.range ((stop - start + step - 1) / step)).map fun k => start + k * step

/-- A key as minted by the generators: Key(number, prefix, fmtr, hit)
(src/spring/docgen.py).  The prefix and fmtr strings are `List Char`. -/
structure Key where
  number : Nat
  pfx : List Char
  fmtr : List Char
  hit : Bool := false
deriving DecidableEq

namespace SequentialKey

/-- SequentialKey.__iter__ for worker sid: one Key per id in
range(sid, items, workers). -/
def iter (sid items workers : Nat) (pfx fmtr : List Char) : List Key :=
  (pyRange sid items workers).map fun n => { number := n, pfx := pfx, fmtr := fmtr }

end SequentialKey

/-- The keys yielded across all workers 0 .. workers-1 by SequentialKey. -/
def seqUnion (items workers : Nat) (pfx fmtr : List Char) : List Key :=
  (List.range workers).flatMap fun sid => SequentialKey.iter sid items workers pfx fmtr

namespace UnorderedKey

/-- The loop of UnorderedKey.__iter__: starting from `number`, each of the
`fuel` iterations runs number = (number + PRIME) % kpw followed by
number = number + sidOff (sidOff = sid * keys_per_workers) and yields the
resulting number. -/
def loop (kpw sidOff : Nat) : Nat → Nat → List Nat
  | 0, _ => []
  | fuel + 1, number =>
    ((number + PRIME) % kpw + sidOff) ::
      loop kpw sidOff fuel ((number + PRIME) % kpw + sidOff)

/-- The id numbers yielded by UnorderedKey.__iter__ for worker sid:
keys_per_workers = items // workers iterations starting from number = 0. -/
def numbers (sid items workers : Nat) : List Nat :=
  loop (items / workers) (sid * (items / workers)) (items / workers) 0

/-- UnorderedKey.__iter__ for worker sid: the yielded Key objects. -/
def iter (sid items workers : Nat) (pfx fmtr : List Char) : List Key :=
  (numbers sid items workers).map fun n => { number := n, pfx := pfx, fmtr := fmtr }

/-- The id numbers yielded across all workers 0 .. workers-1 by UnorderedKey. -/
def unionNumbers (items workers : Nat) : List Nat :=
  (List.range workers).flatMap fun sid => numbers sid items workers

end UnorderedKey

namespace WorkingSetKey

/-- WorkingSetKey.next(curr_items, curr_deletes, curr_offset).  The two reads
of the random source are explicit: hitRoll is the draw of random.randint(0, 100)
compared with working_set_access, and u drives np.random.random_integers(low,
high), embedded as low + u % (high + 1 - low); that call raises when
high < low, embedded as `none`.  The int(...) truncation of
num_existing_items * working_set / 100 is floor division. -/
def next (working_set working_set_access curr_items curr_deletes curr_offset
    hitRoll u : Nat) : Option (Nat × Bool) :=
  let numExisting := curr_items - curr_deletes
  let numHot := numExisting * working_set / 100
  let numCold := numExisting - numHot
  let hit : Bool := decide (hitRoll ≤ working_set_access)
  let lb := if hit then curr_deletes + numCold else curr_deletes
  let rb := if hit then curr_items else curr_deletes + numCold
  if rb ≤ lb then none
  else some ((lb + u % (rb - lb) + curr_offset) * PRIME % numExisting, hit)

end WorkingSetKey

namespace HotKey

/-- HotKey.__iter__ for worker sid: the yielded id numbers
(seq_id * PRIME) % items for seq_id in range(num_cold_items + sid, items,
workers), where num_cold_items = items - items * working_set // 100. -/
def numbers (sid items working_set workers : Nat) : List Nat :=
  let numHot := items * working_set / 100
  let numCold := items - numHot
  (pyRange (numCold + sid) items workers).map fun s => s * PRIME % items

/-- HotKey.__iter__ for worker sid: the yielded Key objects. -/
def iter (sid items working_set workers : Nat) (pfx fmtr : List Char) : List Key :=
  (numbers sid items working_set workers).map fun n =>
    { number := n, pfx := pfx, fmtr := fmtr }

end HotKey

/-- The key numbers WorkingSetKey.next can return with hit = true at
curr_deletes = 0 and curr_offset = 0: some draw hitRoll of randint(0, 100)
and some uniform draw u produce them. -/
def wsHitSet (working_set working_set_access items : Nat) : Set Nat :=
  {k | ∃ hitRoll u, hitRoll ≤ 100 ∧
    WorkingSetKey.next working_set working_set_access items 0 0 hitRoll u =
      some (k, true)}

/-- The key numbers yielded by HotKey over all workers 0 .. workers-1. -/
def hotKeySet (items working_set workers : Nat) : Set Nat :=
  {k | ∃ sid < workers, k ∈ HotKey.numbers sid items working_set workers}

namespace ZipfKey

/-- ZipfKey.next(curr_items, curr_deletes): the draw of np.random.zipf(1.9)
(an integer ≥ 1) is passed in as `draw`; number = curr_items - draw, clamped
to curr_items - 1 when number <= curr_deletes. -/
def next (curr_items curr_deletes draw : Int) : Int :=
  if curr_items - draw ≤ curr_deletes then curr_items - 1
  else curr_items - draw

end ZipfKey

/-- Python a[i:j] for 0 ≤ i ≤ j: the characters from index i up to j,
clamped at the ends. -/
def pySlice (a : List Char) (i j : Nat) : List Char := (a.take j).drop i

/-- Python a[i] on the 64-character alphabets; the generated alphabet always
has index i in range, so the default is never taken. -/
def charAt (a : List Char) (i : Nat) : Char := a.getD i '0'

/-- The value of one lowercase hex digit, as int(c, 16) computes it for the
digit characters that occur in an alphabet. -/
def hexDigitVal (c : Char) : Nat :=
  if 97 ≤ c.toNat then c.toNat - 87 else c.toNat - 48

/-- int(s, 16) on a lowercase hex string. -/
def hexVal (s : List Char) : Nat :=
  s.foldl (fun acc c => acc * 16 + hexDigitVal c) 0

/-- The little-endian decimal digits of n as characters, with enough fuel to
terminate structurally. -/
def natCharsAux : Nat → Nat → List Char
  | 0, _ => []
  | fuel + 1, n =>
    if n = 0 then []
    else Nat.digitChar (n % 10) :: natCharsAux fuel (n / 10)

/-- Python str(n) for a non-negative integer. -/
def natChars (n : Nat) : List Char :=
  if n = 0 then ['0'] else (natCharsAux n n).reverse

/-- Python '%012d' % n: zero-pad the decimal form to width 12 (no truncation). -/
def zeroPad12 (n : Nat) : List Char :=
  List.replicate (12 - (natChars n).length) '0' ++ natChars n

/-- decimal_fmtr(key, prefix) (src/spring/docgen.py): "prefix-%012d" when
prefix is truthy (non-empty), else "%012d". -/
def decimal_fmtr (key : Nat) (pfx : List Char) : List Char :=
  if pfx = [] then zeroPad12 key else pfx ++ '-' :: zeroPad12 key

/-- Parsing a decimal string back to the number it denotes. -/
def parseDec (s : List Char) : Nat :=
  s.foldl (fun acc c => acc * 10 + (c.toNat - 48)) 0

/-- The number h rendered as w zero-padded big-endian hex digits. -/
def hexPad (w h : Nat) : List Char :=
  ((List.range w).reverse).map fun i => Nat.digitChar (h / 16 ^ i % 16)

/-- Modelled from the spec: hashlib.md5(...).hexdigest() is an external
library digest, not code of this repository; the engine relies only on it
being a fixed deterministic function of the input bytes that returns a
32-character lowercase-hex string (128 bits).  It is modelled as exactly
such a function: a polynomial hash of the characters reduced modulo 2^128,
rendered as 32 zero-padded hex digits. -/
def md5Hex (s : List Char) : List Char :=
  hexPad 32 (s.foldl (fun a c => (a * 65599 + c.toNat + 1) % 2 ^ 128) 0)

/-- Key.string (src/spring/docgen.py): the decimal form of the key,
md5-hashed when fmtr == 'hash'. -/
def Key.string (k : Key) : List Char :=
  if k.fmtr = "hash".toList then md5Hex (decimal_fmtr k.number k.pfx)
  else decimal_fmtr k.number k.pfx

/-- The global random source: g k is the k-th raw draw of the underlying
generator, pos the number of draws consumed so far. -/
structure Rnd where
  g : Nat → Nat
  pos : Nat

/-- random.randint(lo, hi): a uniform value in [lo, hi], consuming one raw
draw. -/
def randint (lo hi : Nat) (r : Rnd) : Nat × Rnd :=
  (lo + r.g r.pos % (hi + 1 - lo), ⟨r.g, r.pos + 1⟩)

/-- A fixed random source whose every raw draw is 0. -/
def rnd0 : Rnd := ⟨fun _ => 0, 0⟩

/-- A fixed random source whose every raw draw is 1. -/
def rnd1 : Rnd := ⟨fun _ => 1, 0⟩

/-- The floor of a rational number. -/
def ratFloor (q : ℚ) : Int := q.num.fdiv (q.den : Int)

/-- math.ceil of a rational number. -/
def ratCeil (q : ℚ) : Int := -(ratFloor (-q))

/-- Python int() on a rational: truncation toward zero. -/
def ratTrunc (q : ℚ) : Int := q.num.tdiv (q.den : Int)

/-- Python s[:n], also for negative n: for n < 0 all but the last |n|
characters. -/
def pyTake (s : List Char) (n : Int) : List Char :=
  if n < 0 then s.take (s.length - n.natAbs) else s.take n.toNat

namespace String

/-- String._build_alphabet (src/spring/docgen.py):
md5(key).hexdigest() + md5(reversed key).hexdigest(). -/
def _build_alphabet (key : List Char) : List Char :=
  md5Hex key ++ md5Hex key.reverse

/-- String._build_string(alphabet, length): tile math.ceil(length / 64)
copies of the 64-character alphabet and cut to int(length).  length is a
Python float, integer-valued except for the jitter factors, embedded
as ℚ. -/
def _build_string (alphabet : List Char) (length : ℚ) : List Char :=
  pyTake ((List.replicate (ratCeil (length / 64)).toNat alphabet).flatten)
    (ratTrunc length)

end String

namespace Document

/-- Document.SIZE_VARIATION = 0.25. -/
def SIZE_VARIATION : ℚ := 1 / 4

/-- Document.OVERHEAD = 205. -/
def OVERHEAD : Int := 205

/-- Document._size: 0 when avg_size ≤ OVERHEAD, else the draw of
np.random.uniform(1 - SIZE_VARIATION, 1 + SIZE_VARIATION), passed in as
coeff, times (avg_size - OVERHEAD). -/
def _size (avg_size : Int) (coeff : ℚ) : ℚ :=
  if avg_size ≤ OVERHEAD then 0 else coeff * ((avg_size : ℚ) - (OVERHEAD : ℚ))

/-- Document._build_name: '%s %s' % (alphabet[:6], alphabet[6:12]). -/
def _build_name (a : List Char) : List Char :=
  pySlice a 0 6 ++ ' ' :: pySlice a 6 12

/-- Document._build_email: '%s@%s.com' % (alphabet[12:18], alphabet[18:24]). -/
def _build_email (a : List Char) : List Char :=
  pySlice a 12 18 ++ '@' :: (pySlice a 18 24 ++ ".com".toList)

/-- Document._build_alt_email: both slice offsets are fresh random draws,
name = randint(1, 9) and domain = randint(12, 18). -/
def _build_alt_email (a : List Char) (r : Rnd) : List Char × Rnd :=
  let nameP := randint 1 9 r
  let domainP := randint 12 18 nameP.2
  (pySlice a nameP.1 (nameP.1 + 6) ++
     '@' :: (pySlice a domainP.1 (domainP.1 + 6) ++ ".com".toList),
   domainP.2)

/-- Document._build_city: alphabet[24:30]. -/
def _build_city (a : List Char) : List Char := pySlice a 24 30

/-- Document._build_realm: alphabet[30:36]. -/
def _build_realm (a : List Char) : List Char := pySlice a 30 36

/-- Document._build_country: alphabet[42:48]. -/
def _build_country (a : List Char) : List Char := pySlice a 42 48

/-- Document._build_county: alphabet[48:54]. -/
def _build_county (a : List Char) : List Char := pySlice a 48 54

/-- Document._build_street: alphabet[54:62]. -/
def _build_street (a : List Char) : List Char := pySlice a 54 62

/-- Document._build_coins: max(0.1, int(alphabet[36:40], 16) / 100). -/
def _build_coins (a : List Char) : ℚ :=
  max (1 / 10 : ℚ) ((hexVal (pySlice a 36 40) : ℚ) / 100)

/-- Modelled from the spec: time.gmtime is an external deterministic calendar
conversion of a second count to a 9-field struct_time tuple; only its being a
fixed function of seconds matters to the engine, so the nine fields are
modelled by a fixed arithmetic decomposition. -/
def gmtime (seconds : Nat) : List Nat :=
  [1970 + seconds / 31536000, seconds / 2678400 % 12 + 1,
   seconds / 86400 % 31 + 1, seconds / 3600 % 24, seconds / 60 % 60,
   seconds % 60, seconds / 86400 % 7, seconds / 86400 % 365 + 1, 0]

/-- Document._build_gmtime: tuple(time.gmtime(396 days × (int(alphabet[63], 16) % 12))). -/
def _build_gmtime (a : List Char) : List Nat :=
  gmtime (396 * 24 * 3600 * (hexDigitVal (charAt a 63) % 12))

/-- Document._build_year: 1985 + int(alphabet[62], 16). -/
def _build_year (a : List Char) : Nat := 1985 + hexDigitVal (charAt a 62)

/-- Modelled from the spec: spring/dictionary.py (a module of this repository
that is not under src/) supplies STATES, a fixed non-empty list of
(abbreviation, full name) pairs; a fixed stand-in list of the same shape. -/
def STATES : List (List Char × List Char) :=
  [("AL".toList, "Alabama".toList), ("AK".toList, "Alaska".toList),
   ("AZ".toList, "Arizona".toList), ("CA".toList, "California".toList)]

/-- NUM_STATES = len(STATES) (spring/dictionary.py). -/
def NUM_STATES : Nat := STATES.length

/-- Python str.find: the index of the first occurrence, or -1. -/
def pyFind (a : List Char) (c : Char) : Int :=
  match List.indexOf? c a with
  | some i => (i : Int)
  | none => -1

/-- Python i % n for a possibly negative i and positive n (str.find's -1
wraps to n - 1), which is Int.emod. -/
def pyMod (i : Int) (n : Nat) : Nat := (i % (n : Int)).toNat

/-- Document._build_state: STATES[alphabet.find('7') % NUM_STATES][0]. -/
def _build_state (a : List Char) : List Char :=
  (STATES.getD (pyMod (pyFind a '7') NUM_STATES) ([], [])).1

/-- Document._build_full_state: STATES[alphabet.find('8') % NUM_STATES][1]. -/
def _build_full_state (a : List Char) : List Char :=
  (STATES.getD (pyMod (pyFind a '8') NUM_STATES) ([], [])).2

/-- Document._build_category: int(alphabet[41], 16) % 3. -/
def _build_category (a : List Char) : Nat := hexDigitVal (charAt a 41) % 3

/-- Modelled from the spec: fastdocgen.build_achievements is a C extension of
this repository, not under src/: a deterministic function of the alphabet
producing a list of small integers; a fixed stand-in of the same shape. -/
def build_achievements (a : List Char) : List Nat :=
  (a.take 16).map fun c => c.toNat % 512

/-- Document._build_achievements: build_achievements(alphabet) or [0]. -/
def _build_achievements (a : List Char) : List Nat :=
  match build_achievements a with
  | [] => [0]
  | l => l

end Document

namespace ReverseLookupDocument

/-- ReverseLookupDocument.OVERHEAD = 420. -/
def OVERHEAD : Int := 420

/-- ReverseLookupDocument._size: avg_size - OVERHEAD, no jitter, no floor. -/
def _size (avg_size : Int) : Int := avg_size - OVERHEAD

/-- ReverseLookupDocument.__init__: is_random = (prefix != 'n1ql'). -/
def is_random (pfx : List Char) : Bool := decide (pfx ≠ "n1ql".toList)

/-- ReverseLookupDocument.build_email: the randomized alt form when
is_random, else the fixed email slice. -/
def build_email (pfx : List Char) (a : List Char) (r : Rnd) : List Char × Rnd :=
  if is_random pfx then Document._build_alt_email a r
  else (Document._build_email a, r)

/-- ReverseLookupDocument._build_capped: a random 6-character slice when
is_random, else '%s_%s_%s' % (prefix, num_unique, seq_id // num_unique). -/
def _build_capped (pfx : List Char) (a : List Char) (seq_id num_unique : Nat)
    (r : Rnd) : List Char × Rnd :=
  if is_random pfx then
    let offP := randint 1 9 r
    (pySlice a offP.1 (offP.1 + 6), offP.2)
  else
    (pfx ++ '_' :: (natChars num_unique ++ '_' :: natChars (seq_id / num_unique)), r)

/-- ReverseLookupDocument._build_topics: always []. -/
def _build_topics (seq_id : Nat) : List (List Char) := []

end ReverseLookupDocument

/-- The record ReverseLookupDocument.next returns, field for field. -/
structure RLDoc where
  name : List Char
  email : List Char
  alt_email : List Char
  street : List Char
  city : List Char
  county : List Char
  state : List Char
  full_state : List Char
  country : List Char
  realm : List Char
  coins : ℚ
  category : Nat
  achievements : List Nat
  gmtime : List Nat
  year : Nat
  body : List Char
  capped_small : List Char
  topics : List (List Char)
deriving DecidableEq

/-- ReverseLookupDocument.next(key): the dict literal is evaluated top to
bottom, so the random source threads through email, alt_email and
capped_small in that order. -/
def ReverseLookupDocument.next (avg_size : Int) (pfx : List Char) (key : Key)
    (r : Rnd) : RLDoc × Rnd :=
  let a := String._build_alphabet key.string
  let emailP := build_email pfx a r
  let altP := Document._build_alt_email a emailP.2
  let cappedP := _build_capped pfx a key.number 100 altP.2
  ({ name := Document._build_name a,
     email := emailP.1,
     alt_email := altP.1,
     street := Document._build_street a,
     city := Document._build_city a,
     county := Document._build_county a,
     state := Document._build_state a,
     full_state := Document._build_full_state a,
     country := Document._build_country a,
     realm := Document._build_realm a,
     coins := Document._build_coins a,
     category := Document._build_category a,
     achievements := Document._build_achievements a,
     gmtime := Document._build_gmtime a,
     year := Document._build_year a,
     body := String._build_string a ((_size avg_size : Int) : ℚ),
     capped_small := cappedP.1,
     topics := _build_topics key.number }, cappedP.2)

namespace JoinedDocument

/-- The record JoinedDocument.next returns; each element of replies is the
user string of one {'user': ...} entry, in order. -/
structure JoinedDoc where
  owner : List Char
  title : List Char
  capped : List Char
  categories : List (List Char)
  replies : List (List Char)
deriving DecidableEq

/-- JoinedDocument._build_owner: decimal_fmtr(seq_id % (num_docs // 4), prefix),
the 4:1 reference to ReverseLookupDocument keys. -/
def _build_owner (num_docs : Nat) (pfx : List Char) (seq_id : Nat) : List Char :=
  decimal_fmtr (seq_id % (num_docs / 4)) pfx

/-- JoinedDocument._build_title: alphabet[:32]. -/
def _build_title (a : List Char) : List Char := pySlice a 0 32

/-- JoinedDocument._build_categories: four references modulo num_categories. -/
def _build_categories (num_categories : Nat) (pfx : List Char) (seq_id : Nat) :
    List (List Char) :=
  [decimal_fmtr ((seq_id + 11) % num_categories) pfx,
   decimal_fmtr ((seq_id + 19) % num_categories) pfx,
   decimal_fmtr ((seq_id + 23) % num_categories) pfx,
   decimal_fmtr ((seq_id + 29) % num_categories) pfx]

/-- JoinedDocument._build_user: decimal_fmtr((seq_id + idx + 537) % num_docs, prefix). -/
def _build_user (num_docs : Nat) (pfx : List Char) (seq_id idx : Nat) : List Char :=
  decimal_fmtr ((seq_id + idx + 537) % num_docs) pfx

/-- JoinedDocument._build_replies: one user reference per idx in
range(num_replies). -/
def _build_replies (num_docs num_replies : Nat) (pfx : List Char) (seq_id : Nat) :
    List (List Char) :=
  (List.range num_replies).map fun idx => _build_user num_docs pfx seq_id idx

/-- JoinedDocument.next(key). -/
def next (pfx : List Char) (num_docs num_categories num_replies : Nat)
    (key : Key) (r : Rnd) : JoinedDoc × Rnd :=
  let a := String._build_alphabet key.string
  let cappedP := ReverseLookupDocument._build_capped pfx a key.number 100 r
  ({ owner := _build_owner num_docs pfx key.number,
     title := _build_title a,
     capped := cappedP.1,
     categories := _build_categories num_categories pfx key.number,
     replies := _build_replies num_docs num_replies pfx key.number }, cappedP.2)

end JoinedDocument

end Spring

namespace Spring

namespace Reservoir

theorem update_capacity (s : State) (e : Event) :
    (update s e).capacity = s.capacity := by
  simp only [update]
  split_ifs <;> rfl

theorem update_length_le (s : State) (e : Event)
    (h : s.values.length ≤ s.capacity) :
    (update s e).values.length ≤ s.capacity := by
  simp only [update]
  split_ifs with h1 h2 h3
  · exact h
  · simpa using h2
  · simpa using h
  · exact h

theorem foldl_update_capacity (events : List Event) (s : State) :
    (events.foldl update s).capacity = s.capacity := by
  induction events generalizing s with
  | nil => rfl
  | cons e es ih => rw [List.foldl_cons, ih, update_capacity]

theorem foldl_update_length_le (events : List Event) (s : State)
    (h : s.values.length ≤ s.capacity) :
    (events.foldl update s).values.length ≤ s.capacity := by
  induction events generalizing s with
  | nil => exact h
  | cons e es ih =>
    rw [List.foldl_cons]
    have h2 : (update s e).values.length ≤ (update s e).capacity := by
      rw [update_capacity]; exact update_length_le s e h
    have := ih (update s e) h2
    rwa [update_capacity] at this

end Reservoir

/-- C1: a reservoir built with capacity = MAX_CAPACITY // num_workers keeps
len(values) ≤ capacity after every sequence of update calls: update appends
only while len(values) < capacity and otherwise overwrites slot r only when
r < capacity. -/
theorem c1_reservoir_sample_bounded (num_workers : Nat)
    (events : List Reservoir.Event) (h : 1 ≤ num_workers) :
    (Reservoir.run num_workers events).values.length ≤
      Reservoir.MAX_CAPACITY / num_workers := by
  have := Reservoir.foldl_update_length_le events (Reservoir.init num_workers)
    (by simp [Reservoir.init])
  simpa [Reservoir.run, Reservoir.init] using this

/-- Witness for C1 at num_workers = 4 and one concrete update call. -/
theorem c1_reservoir_sample_bounded_witness :
    1 ≤ 4 ∧
    (Reservoir.run 4 [⟨['g'], 7, 5, 0⟩]).values.length ≤
      Reservoir.MAX_CAPACITY / 4 :=
  ⟨by decide, c1_reservoir_sample_bounded 4 [⟨['g'], 7, 5, 0⟩] (by decide)⟩

theorem lt_ceilDiv_iff {d s k : Nat} (hs : 0 < s) :
    k < (d + s - 1) / s ↔ k * s < d := by
  rw [Nat.lt_iff_add_one_le, Nat.le_div_iff_mul_le hs]
  have h1 : (k + 1) * s = k * s + s := by ring
  rw [h1]
  generalize k * s = m
  omega

theorem mem_pyRange {start stop step x : Nat} (hs : 0 < step) :
    x ∈ pyRange start stop step ↔
      start ≤ x ∧ x < stop ∧ (x - start) % step = 0 := by
  simp only [pyRange, List.mem_map, List.mem_range]
  constructor
  · rintro ⟨k, hk, rfl⟩
    have h1 : k * step < stop - start := (lt_ceilDiv_iff hs).mp hk
    refine ⟨Nat.le_add_right _ _, by omega, ?_⟩
    rw [Nat.add_sub_cancel_left]
    exact Nat.mul_mod_left k step
  · rintro ⟨h1, h2, h3⟩
    have hdvd : step ∣ (x - start) := Nat.dvd_of_mod_eq_zero h3
    have h4 : (x - start) / step * step = x - start := Nat.div_mul_cancel hdvd
    refine ⟨(x - start) / step, ?_, by omega⟩
    rw [lt_ceilDiv_iff hs, h4]
    omega

theorem pyRange_nodup (start stop : Nat) {step : Nat} (hs : 0 < step) :
    (pyRange start stop step).Nodup := by
  refine List.Nodup.map ?_ (List.nodup_range _)
  intro a b hab
  dsimp only at hab
  have : a * step = b * step := by omega
  exact Nat.eq_of_mul_eq_mul_right hs this

theorem pyRange_sorted (start stop : Nat) {step : Nat} (hs : 0 < step) :
    (pyRange start stop step).Sorted (· < ·) := by
  refine List.Pairwise.map _ ?_ (List.pairwise_lt_range _)
  intro a b hab
  dsimp only
  have : a * step < b * step := Nat.mul_lt_mul_of_lt_of_le hab (Nat.le_refl _) hs
  omega

namespace SequentialKey

theorem seqIter_map_number (sid items workers : Nat) (pfx fmtr : List Char) :
    (iter sid items workers pfx fmtr).map Key.number =
      pyRange sid items workers := by
  simp [iter, List.map_map, Function.comp_def]

end SequentialKey

theorem mem_pyRange_of_lt {sid items workers : Nat} (hW : 0 < workers)
    (hsid : sid < workers) {x : Nat} :
    x ∈ pyRange sid items workers ↔ x < items ∧ x % workers = sid := by
  rw [mem_pyRange hW]
  constructor
  · rintro ⟨h1, h2, h3⟩
    refine ⟨h2, ?_⟩
    obtain ⟨k, hk⟩ := Nat.dvd_of_mod_eq_zero h3
    have hx : x = sid + workers * k := by omega
    rw [hx, Nat.add_mul_mod_self_left, Nat.mod_eq_of_lt hsid]
  · rintro ⟨h2, h3⟩
    have h1 : sid ≤ x := h3 ▸ Nat.mod_le x workers
    refine ⟨h1, h2, ?_⟩
    have h4 : workers * (x / workers) + x % workers = x := Nat.div_add_mod x workers
    have h5 : x - sid = workers * (x / workers) := by omega
    rw [h5]
    exact Nat.mul_mod_right workers _

/-- C2: for every population size N ≥ 0 and worker count W ≥ 1, the ids
yielded by SequentialKey across workers 0..W-1 cover {0,…,N-1} exactly, no
id is yielded twice, and each worker yields its ids in increasing order. -/
theorem c2_sequential_key_coverage (items workers : Nat) (pfx fmtr : List Char)
    (hW : 1 ≤ workers) :
    (∀ x, x ∈ (seqUnion items workers pfx fmtr).map Key.number ↔ x < items) ∧
    ((seqUnion items workers pfx fmtr).map Key.number).Nodup ∧
    (∀ sid, ((SequentialKey.iter sid items workers pfx fmtr).map Key.number).Sorted (· < ·)) := by
  have hW0 : 0 < workers := hW
  have hmap : (seqUnion items workers pfx fmtr).map Key.number =
      (List.range workers).flatMap fun sid => pyRange sid items workers := by
    simp only [seqUnion, List.map_flatMap, SequentialKey.seqIter_map_number]
  refine ⟨?_, ?_, ?_⟩
  · intro x
    rw [hmap]
    simp only [List.mem_flatMap, List.mem_range]
    constructor
    · rintro ⟨sid, hsid, hx⟩
      exact ((mem_pyRange_of_lt hW0 hsid).mp hx).1
    · intro hx
      exact ⟨x % workers, Nat.mod_lt x hW0,
        (mem_pyRange_of_lt hW0 (Nat.mod_lt x hW0)).mpr ⟨hx, rfl⟩⟩
  · rw [hmap, List.nodup_flatMap]
    refine ⟨fun sid _ => pyRange_nodup sid items hW0, ?_⟩
    refine (List.pairwise_lt_range workers).imp_of_mem ?_
    intro a b ha hb hab
    rw [List.mem_range] at ha hb
    show List.Disjoint (pyRange a items workers) (pyRange b items workers)
    rw [List.disjoint_left]
    intro x hxa hxb
    have h1 := ((mem_pyRange_of_lt hW0 ha).mp hxa).2
    have h2 := ((mem_pyRange_of_lt hW0 hb).mp hxb).2
    omega
  · intro sid
    rw [SequentialKey.seqIter_map_number]
    exact pyRange_sorted sid items hW0

/-- Witness for C2 at items = 7, workers = 3. -/
theorem c2_sequential_key_coverage_witness :
    1 ≤ 3 ∧
    ((∀ x, x ∈ (seqUnion 7 3 ['t'] []).map Key.number ↔ x < 7) ∧
     ((seqUnion 7 3 ['t'] []).map Key.number).Nodup ∧
     (∀ sid, ((SequentialKey.iter sid 7 3 ['t'] []).map Key.number).Sorted (· < ·))) :=
  ⟨by decide, c2_sequential_key_coverage 7 3 ['t'] [] (by decide)⟩

namespace UnorderedKey

theorem unorderedIter_map_number (sid items workers : Nat) (pfx fmtr : List Char) :
    (iter sid items workers pfx fmtr).map Key.number = numbers sid items workers := by
  simp [iter, List.map_map, Function.comp_def]

theorem loop_eq (kpw sidOff : Nat) (hdvd : kpw ∣ sidOff) :
    ∀ (fuel number : Nat),
      loop kpw sidOff fuel number =
        (List.range fuel).map fun i => (number + (i + 1) * PRIME) % kpw + sidOff := by
  intro fuel
  induction fuel with
  | zero => intro number; rfl
  | succ n ih =>
    intro number
    obtain ⟨t, rfl⟩ := hdvd
    rw [loop, ih, List.range_succ_eq_map, List.map_cons, List.map_map]
    simp only [List.cons.injEq]
    refine ⟨by norm_num, ?_⟩
    refine List.map_congr_left ?_
    intro i _
    simp only [Function.comp_apply, Nat.succ_eq_add_one]
    have h1 : (number + PRIME) % kpw + kpw * t + (i + 1) * PRIME =
        (number + PRIME) % kpw + (i + 1) * PRIME + t * kpw := by ring
    rw [h1, Nat.add_mul_mod_self_right, Nat.mod_add_mod]
    have h2 : number + PRIME + (i + 1) * PRIME = number + (i + 1 + 1) * PRIME := by
      ring
    rw [h2]

theorem numbers_eq (sid items workers : Nat) :
    numbers sid items workers =
      (List.range (items / workers)).map
        fun i => (i + 1) * PRIME % (items / workers) + sid * (items / workers) := by
  rw [numbers, loop_eq _ _ (dvd_mul_left _ sid)]
  refine List.map_congr_left fun i _ => ?_
  rw [Nat.zero_add]

theorem residue_inj {kpw : Nat} (hcop : Nat.gcd kpw PRIME = 1)
    {a b : Nat} (ha : a < kpw) (hb : b < kpw)
    (h : (a + 1) * PRIME % kpw = (b + 1) * PRIME % kpw) : a = b := by
  have h1 : (a + 1) * PRIME ≡ (b + 1) * PRIME [MOD kpw] := h
  have h2 : (a + 1) ≡ (b + 1) [MOD kpw] := Nat.ModEq.cancel_right_of_coprime hcop h1
  have h2a : (a + 1) % kpw = (b + 1) % kpw := h2
  have ha1 : a + 1 ≤ kpw := ha
  have hb1 : b + 1 ≤ kpw := hb
  rcases eq_or_lt_of_le ha1 with e1 | e1 <;> rcases eq_or_lt_of_le hb1 with e2 | e2
  · omega
  · rw [e1, Nat.mod_self, Nat.mod_eq_of_lt e2] at h2a
    omega
  · rw [e2, Nat.mod_self, Nat.mod_eq_of_lt e1] at h2a
    omega
  · rw [Nat.mod_eq_of_lt e1, Nat.mod_eq_of_lt e2] at h2a
    omega

theorem residues_perm (kpw : Nat) (hcop : Nat.gcd kpw PRIME = 1) :
    ((List.range kpw).map fun i => (i + 1) * PRIME % kpw).Perm (List.range kpw) := by
  have hnd : ((List.range kpw).map fun i => (i + 1) * PRIME % kpw).Nodup := by
    refine List.Nodup.map_on ?_ (List.nodup_range _)
    intro a ha b hb hab
    rw [List.mem_range] at ha hb
    exact residue_inj hcop ha hb hab
  have hsub : ((List.range kpw).map fun i => (i + 1) * PRIME % kpw) ⊆ List.range kpw := by
    intro x hx
    rw [List.mem_map] at hx
    obtain ⟨i, hi, rfl⟩ := hx
    rw [List.mem_range] at hi ⊢
    exact Nat.mod_lt _ (by omega)
  refine (hnd.subperm hsub).perm_of_length_le ?_
  simp

theorem numbers_perm_block (sid items workers : Nat)
    (hcop : Nat.gcd (items / workers) PRIME = 1) :
    (numbers sid items workers).Perm
      (List.range' (sid * (items / workers)) (items / workers)) := by
  rw [numbers_eq]
  have h1 : ((List.range (items / workers)).map
      fun i => (i + 1) * PRIME % (items / workers) + sid * (items / workers)) =
      ((List.range (items / workers)).map fun i => (i + 1) * PRIME % (items / workers)).map
        fun r => sid * (items / workers) + r := by
    rw [List.map_map]
    exact List.map_congr_left fun i _ => by simp [Nat.add_comm]
  rw [h1, List.range'_eq_map_range]
  exact (residues_perm _ hcop).map _

end UnorderedKey

/-- C3 (counterexample): at items = 3, workers = 2 the block size 3 // 2 = 1 is
coprime to 971, yet the union of UnorderedKey outputs across the workers is
{0, 1}, not {0, 1, 2}, and worker 0's output [0] is not a permutation of the
ids {0, 2} that SequentialKey yields for worker 0. -/
theorem c3_unordered_key_counterexample :
    Nat.Coprime (3 / 2) PRIME ∧
    (UnorderedKey.unionNumbers 3 2).toFinset ≠ Finset.range 3 ∧
    ¬ (UnorderedKey.numbers 0 3 2).Perm
        ((SequentialKey.iter 0 3 2 ['t'] []).map Key.number) := by
  decide

/-- C3 (amended): for workers ≥ 1 with workers dividing items and block size
items // workers coprime to 971, the union of UnorderedKey outputs across
workers 0..workers-1 equals {0,…,items-1} with no duplicates, and each
worker's output is a permutation of its contiguous block
[sid*(items//workers), (sid+1)*(items//workers)) — which coincides with the
id set SequentialKey yields for that worker only when workers = 1. -/
theorem c3_unordered_key_coverage (items workers : Nat) (pfx fmtr : List Char)
    (hW : 1 ≤ workers) (hdvd : workers ∣ items)
    (hcop : Nat.Coprime (items / workers) PRIME) :
    (∀ x, x ∈ UnorderedKey.unionNumbers items workers ↔ x < items) ∧
    (UnorderedKey.unionNumbers items workers).Nodup ∧
    (∀ sid, (UnorderedKey.iter sid items workers pfx fmtr).map Key.number =
      UnorderedKey.numbers sid items workers) ∧
    (∀ sid, (UnorderedKey.numbers sid items workers).Perm
      (List.range' (sid * (items / workers)) (items / workers))) := by
  obtain ⟨kpw, rfl⟩ := hdvd
  have hkpw : workers * kpw / workers = kpw := Nat.mul_div_cancel_left kpw hW
  have hmem : ∀ sid x, x ∈ UnorderedKey.numbers sid (workers * kpw) workers ↔
      sid * kpw ≤ x ∧ x < sid * kpw + kpw := by
    intro sid x
    rw [(UnorderedKey.numbers_perm_block sid _ workers
        hcop).mem_iff,
      hkpw, List.mem_range'_1]
  refine ⟨?_, ?_, ?_, ?_⟩
  · intro x
    rw [UnorderedKey.unionNumbers, List.mem_flatMap]
    constructor
    · rintro ⟨sid, hsid, hx⟩
      rw [List.mem_range] at hsid
      rw [hmem] at hx
      have h1 : sid * kpw + kpw ≤ workers * kpw := by
        have := Nat.mul_le_mul_right kpw (Nat.succ_le_of_lt hsid)
        calc sid * kpw + kpw = (sid + 1) * kpw := by ring
        _ ≤ workers * kpw := this
      omega
    · intro hx
      rcases Nat.eq_zero_or_pos kpw with hk | hk
      · subst hk
        omega
      refine ⟨x / kpw, ?_, ?_⟩
      · rw [List.mem_range, Nat.div_lt_iff_lt_mul hk]
        omega
      · rw [hmem]
        have h1 := Nat.div_add_mod x kpw
        have h2 : x % kpw < kpw := Nat.mod_lt x hk
        constructor
        · calc x / kpw * kpw = kpw * (x / kpw) := by ring
          _ ≤ x := by omega
        · calc x < kpw * (x / kpw) + kpw := by omega
          _ = x / kpw * kpw + kpw := by ring
  · rw [UnorderedKey.unionNumbers, List.nodup_flatMap]
    constructor
    · intro sid _
      have hperm := UnorderedKey.numbers_perm_block sid (workers * kpw) workers
        hcop
      exact hperm.nodup_iff.mpr (List.nodup_range' _ _)
    · refine (List.pairwise_lt_range workers).imp_of_mem ?_
      intro a b ha hb hab
      show List.Disjoint (UnorderedKey.numbers a (workers * kpw) workers)
        (UnorderedKey.numbers b (workers * kpw) workers)
      rw [List.disjoint_left]
      intro x hxa hxb
      rw [hmem] at hxa hxb
      have h1 : a * kpw + kpw ≤ b * kpw := by
        have := Nat.mul_le_mul_right kpw (Nat.succ_le_of_lt hab)
        calc a * kpw + kpw = (a + 1) * kpw := by ring
        _ ≤ b * kpw := this
      omega
  · intro sid
    exact UnorderedKey.unorderedIter_map_number sid _ workers pfx fmtr
  · intro sid
    have hperm := UnorderedKey.numbers_perm_block sid (workers * kpw) workers
      hcop
    rw [hkpw]
    rw [hkpw] at hperm
    exact hperm

theorem mem_wsHitSet {ws wsa items k : Nat} :
    k ∈ wsHitSet ws wsa items ↔
      ∃ n, (items - items * ws / 100 ≤ n ∧ n < items) ∧ k = n * PRIME % items := by
  constructor
  · rintro ⟨hr, u, hhr, heq⟩
    by_cases hd : hr ≤ wsa
    · simp only [WorkingSetKey.next, hd, decide_True, if_true, Nat.sub_zero,
        Nat.zero_add, Nat.add_zero] at heq
      split at heq
      · exact absurd heq (by simp)
      · rename_i hcond
        rw [Option.some.injEq, Prod.mk.injEq] at heq
        obtain ⟨hkeq, -⟩ := heq
        refine ⟨items - items * ws / 100 + u % (items - (items - items * ws / 100)),
          ⟨Nat.le_add_right _ _, ?_⟩, hkeq.symm⟩
        have h1 : u % (items - (items - items * ws / 100)) <
            items - (items - items * ws / 100) :=
          Nat.mod_lt _ (by omega)
        omega
    · simp only [WorkingSetKey.next, hd, decide_False, if_false, Bool.false_eq_true,
        Nat.sub_zero, Nat.zero_add, Nat.add_zero] at heq
      split at heq
      · exact absurd heq (by simp)
      · rw [Option.some.injEq, Prod.mk.injEq] at heq
        exact absurd heq.2 (by simp)
  · rintro ⟨n, ⟨hn1, hn2⟩, rfl⟩
    refine ⟨0, n - (items - items * ws / 100), Nat.zero_le _, ?_⟩
    have hmod : (n - (items - items * ws / 100)) %
        (items - (items - items * ws / 100)) = n - (items - items * ws / 100) :=
      Nat.mod_eq_of_lt (by omega)
    simp only [WorkingSetKey.next, decide_eq_true_eq, Nat.zero_le, decide_True,
      if_true, Nat.sub_zero, Nat.zero_add, Nat.add_zero]
    rw [if_neg (by omega), hmod, Option.some.injEq, Prod.mk.injEq]
    exact ⟨by rw [Nat.add_sub_cancel' hn1], rfl⟩

theorem mem_hotKeySet {items ws workers k : Nat} (hW : 0 < workers) :
    k ∈ hotKeySet items ws workers ↔
      ∃ n, (items - items * ws / 100 ≤ n ∧ n < items) ∧ k = n * PRIME % items := by
  simp only [hotKeySet, Set.mem_setOf_eq, HotKey.numbers, List.mem_map]
  constructor
  · rintro ⟨sid, hsid, n, hn, rfl⟩
    rw [mem_pyRange hW] at hn
    exact ⟨n, ⟨by omega, hn.2.1⟩, rfl⟩
  · rintro ⟨n, ⟨hn1, hn2⟩, rfl⟩
    refine ⟨(n - (items - items * ws / 100)) % workers, Nat.mod_lt _ hW, n, ?_, rfl⟩
    rw [mem_pyRange hW]
    have h1 : (n - (items - items * ws / 100)) % workers ≤
        n - (items - items * ws / 100) := Nat.mod_le _ _
    refine ⟨by omega, hn2, ?_⟩
    have h2 : n - (items - items * ws / 100 + (n - (items - items * ws / 100)) % workers) =
        n - (items - items * ws / 100) -
          (n - (items - items * ws / 100)) % workers := by omega
    rw [h2]
    have h3 := Nat.div_add_mod (n - (items - items * ws / 100)) workers
    have h4 : n - (items - items * ws / 100) -
        (n - (items - items * ws / 100)) % workers =
        workers * ((n - (items - items * ws / 100)) / workers) := by omega
    rw [h4]
    exact Nat.mul_mod_right workers _

/-- Witness for the amended C3 at items = 6, workers = 2 (block size 3,
coprime to 971). -/
theorem c3_unordered_key_coverage_witness :
    (1 ≤ 2 ∧ 2 ∣ 6 ∧ Nat.Coprime (6 / 2) PRIME) ∧
    ((∀ x, x ∈ UnorderedKey.unionNumbers 6 2 ↔ x < 6) ∧
     (UnorderedKey.unionNumbers 6 2).Nodup ∧
     (∀ sid, (UnorderedKey.iter sid 6 2 ['t'] []).map Key.number =
       UnorderedKey.numbers sid 6 2) ∧
     (∀ sid, (UnorderedKey.numbers sid 6 2).Perm
       (List.range' (sid * (6 / 2)) (6 / 2)))) :=
  ⟨⟨by decide, by decide, by decide⟩,
   c3_unordered_key_coverage 6 2 ['t'] [] (by decide) (by decide) (by decide)⟩

/-- C4 (counterexample): at items = 971 (a multiple of the prime 971),
working_set = 50, workers = 1, multiplication by 971 modulo 971 collapses
every key number to 0: WorkingSetKey.next can return key 0 with hit = false
although 0 also lies in the hit = true set. -/
theorem c4_working_set_hot_key_counterexample :
    WorkingSetKey.next 50 50 971 0 0 51 0 = some (0, false) ∧
    (0 : Nat) ∈ wsHitSet 50 50 971 := by
  constructor
  · decide
  · exact ⟨0, 0, Nat.zero_le _, by decide⟩

/-- C4 (amended): at curr_deletes = 0 and curr_offset = 0, the key numbers
WorkingSetKey.next can return with hit = true are exactly the numbers yielded
by HotKey across all workers; and when items is coprime to 971 (the
multiplication by PRIME modulo items is then injective), every key returned
with hit = false lies outside that set. -/
theorem c4_working_set_hot_key (ws wsa items workers : Nat) (hW : 1 ≤ workers) :
    wsHitSet ws wsa items = hotKeySet items ws workers ∧
    (Nat.gcd items PRIME = 1 →
      ∀ hr u k, WorkingSetKey.next ws wsa items 0 0 hr u = some (k, false) →
        k ∉ wsHitSet ws wsa items) := by
  constructor
  · ext k
    rw [mem_wsHitSet, mem_hotKeySet hW]
  · intro hcop hr u k heq hk
    rw [mem_wsHitSet] at hk
    obtain ⟨n, ⟨hn1, hn2⟩, hkeq⟩ := hk
    by_cases hd : hr ≤ wsa
    · simp only [WorkingSetKey.next, hd, decide_True, if_true, Nat.sub_zero,
        Nat.zero_add, Nat.add_zero] at heq
      split at heq
      · exact absurd heq (by simp)
      · rw [Option.some.injEq, Prod.mk.injEq] at heq
        exact absurd heq.2 (by simp)
    · simp only [WorkingSetKey.next, hd, decide_False, if_false, Bool.false_eq_true,
        Nat.sub_zero, Nat.zero_add, Nat.add_zero] at heq
      split at heq
      · exact absurd heq (by simp)
      · rename_i hcond
        rw [Option.some.injEq, Prod.mk.injEq] at heq
        obtain ⟨hkeq2, -⟩ := heq
        have hm : u % (items - items * ws / 100) < items - items * ws / 100 :=
          Nat.mod_lt _ (by omega)
        have hmeq : u % (items - items * ws / 100) * PRIME % items =
            n * PRIME % items := by rw [hkeq2, hkeq]
        have hcong : u % (items - items * ws / 100) ≡ n [MOD items] :=
          Nat.ModEq.cancel_right_of_coprime hcop hmeq
        have hlt1 : u % (items - items * ws / 100) < items := by omega
        have := hcong.eq_of_lt_of_lt hlt1 hn2
        omega

/-- Witness for the amended C4 at working_set = 50, working_set_access = 50,
items = 10 (coprime to 971), workers = 2. -/
theorem c4_working_set_hot_key_witness :
    1 ≤ 2 ∧
    (wsHitSet 50 50 10 = hotKeySet 10 50 2 ∧
     (Nat.gcd 10 PRIME = 1 →
       ∀ hr u k, WorkingSetKey.next 50 50 10 0 0 hr u = some (k, false) →
         k ∉ wsHitSet 50 50 10)) :=
  ⟨by decide, c4_working_set_hot_key 50 50 10 2 (by decide)⟩

/-- C10: whenever WorkingSetKey.next(curr_items, curr_deletes, curr_offset)
returns a key, its number lies in [0, curr_items - curr_deletes): the final
value is reduced modulo the live population count and never re-based by
curr_deletes; in particular for curr_deletes > 0 the returned number can be
smaller than curr_deletes. -/
theorem c10_working_set_key_range (ws wsa ci cd off hr u k : Nat) (hit : Bool)
    (h : WorkingSetKey.next ws wsa ci cd off hr u = some (k, hit)) :
    k < ci - cd ∧
    ∃ ws2 wsa2 ci2 cd2 hr2 u2 k2 hit2, 0 < cd2 ∧
      WorkingSetKey.next ws2 wsa2 ci2 cd2 0 hr2 u2 = some (k2, hit2) ∧
      k2 < cd2 := by
  constructor
  · by_cases hd : hr ≤ wsa
    · simp only [WorkingSetKey.next, hd, decide_True, if_true] at h
      split at h
      · exact absurd h (by simp)
      · rename_i hcond
        rw [Option.some.injEq, Prod.mk.injEq] at h
        obtain ⟨hkeq, -⟩ := h
        rw [← hkeq]
        exact Nat.mod_lt _ (by omega)
    · simp only [WorkingSetKey.next, hd, decide_False, if_false,
        Bool.false_eq_true] at h
      split at h
      · exact absurd h (by simp)
      · rename_i hcond
        rw [Option.some.injEq, Prod.mk.injEq] at h
        obtain ⟨hkeq, -⟩ := h
        rw [← hkeq]
        refine Nat.mod_lt _ ?_
        omega
  · exact ⟨50, 100, 11, 1, 0, 4, 0, true, by decide, by decide, by decide⟩

/-- Witness for C10 at a concrete call. -/
theorem c10_working_set_key_range_witness :
    (0 : Nat) < 11 - 1 ∧
    ∃ ws2 wsa2 ci2 cd2 hr2 u2 k2 hit2, 0 < cd2 ∧
      WorkingSetKey.next ws2 wsa2 ci2 cd2 0 hr2 u2 = some (k2, hit2) ∧
      k2 < cd2 :=
  c10_working_set_key_range 50 100 11 1 0 0 4 0 true (by decide)

/-- C7 (counterexample): at curr_items = 3, curr_deletes = 1, draw = 2 the
intermediate number 3 - 2 = 1 is not below curr_deletes, so by the claim no
clamping would happen and the key would be 1; the code clamps at ≤ and
returns 2. -/
theorem c7_zipf_key_counterexample :
    ¬ (3 - 2 : Int) < 1 ∧ ZipfKey.next 3 1 2 ≠ 3 - 2 := by decide

/-- C7 (amended): ZipfKey.next clamps to curr_items - 1 exactly when
curr_items - draw is at or below curr_deletes (≤, not strictly below), and
for curr_items > curr_deletes ≥ 0 and draw ≥ 1 the returned key always lies
in the live interval [curr_deletes, curr_items) — never a deleted id. -/
theorem c7_zipf_key_live_interval (curr_items curr_deletes draw : Int)
    (h0 : 0 ≤ curr_deletes) (h1 : curr_deletes < curr_items) (h2 : 1 ≤ draw) :
    (curr_items - draw ≤ curr_deletes →
      ZipfKey.next curr_items curr_deletes draw = curr_items - 1) ∧
    (curr_deletes < curr_items - draw →
      ZipfKey.next curr_items curr_deletes draw = curr_items - draw) ∧
    curr_deletes ≤ ZipfKey.next curr_items curr_deletes draw ∧
    ZipfKey.next curr_items curr_deletes draw < curr_items := by
  unfold ZipfKey.next
  split_ifs with h
  · exact ⟨fun _ => rfl, fun hc => absurd hc (by omega), by omega, by omega⟩
  · exact ⟨fun hc => absurd hc h, fun _ => rfl, by omega, by omega⟩

/-- Witness for the amended C7 at curr_items = 5, curr_deletes = 1, draw = 2. -/
theorem c7_zipf_key_live_interval_witness :
    ((0 : Int) ≤ 1 ∧ (1 : Int) < 5 ∧ (1 : Int) ≤ 2) ∧
    (((5 : Int) - 2 ≤ 1 → ZipfKey.next 5 1 2 = 5 - 1) ∧
     ((1 : Int) < 5 - 2 → ZipfKey.next 5 1 2 = 5 - 2) ∧
     (1 : Int) ≤ ZipfKey.next 5 1 2 ∧
     ZipfKey.next 5 1 2 < 5) :=
  ⟨⟨by decide, by decide, by decide⟩,
   c7_zipf_key_live_interval 5 1 2 (by decide) (by decide) (by decide)⟩

theorem hexPad_length (w h : Nat) : (hexPad w h).length = w := by
  simp [hexPad]

theorem md5Hex_length (s : List Char) : (md5Hex s).length = 32 :=
  hexPad_length 32 _

theorem mem_hexPad {w h : Nat} {c : Char} (hc : c ∈ hexPad w h) :
    c ∈ "0123456789abcdef".toList := by
  simp only [hexPad, List.mem_map, List.mem_reverse, List.mem_range] at hc
  obtain ⟨i, -, rfl⟩ := hc
  set m := h / 16 ^ i % 16 with hm
  have h16 : m < 16 := Nat.mod_lt _ (by norm_num)
  interval_cases m <;> decide

theorem natCharsAux_eq (fuel : Nat) :
    ∀ n : Nat, n ≤ fuel → natCharsAux fuel n = (Nat.digits 10 n).map Nat.digitChar := by
  induction fuel with
  | zero =>
    intro n hn
    have : n = 0 := by omega
    subst this
    simp [natCharsAux]
  | succ fuel ih =>
    intro n hn
    by_cases hz : n = 0
    · subst hz
      simp [natCharsAux]
    · rw [natCharsAux, if_neg hz,
        Nat.digits_def' (by norm_num : (1 : ℕ) < 10) (Nat.pos_of_ne_zero hz),
        List.map_cons]
      congr 1
      have hdiv : n / 10 < n := Nat.div_lt_self (Nat.pos_of_ne_zero hz) (by norm_num)
      exact ih (n / 10) (by omega)

theorem parseDec_digit_chars (ds : List Nat) (hd : ∀ d ∈ ds, d < 10) :
    ∀ acc : Nat,
      List.foldl (fun acc c => acc * 10 + (c.toNat - 48)) acc
        ((ds.map Nat.digitChar).reverse) =
      acc * 10 ^ ds.length + Nat.ofDigits 10 ds := by
  induction ds with
  | nil => intro acc; simp [Nat.ofDigits_nil]
  | cons d ds ih =>
    intro acc
    rw [List.map_cons, List.reverse_cons, List.foldl_append,
      ih (fun x hx => hd x (List.mem_cons_of_mem d hx))]
    simp only [List.foldl_cons, List.foldl_nil]
    have hdn : d < 10 := hd d (List.mem_cons_self d ds)
    have hchar : (Nat.digitChar d).toNat - 48 = d := by
      interval_cases d <;> decide
    rw [hchar, Nat.ofDigits_cons, List.length_cons]
    ring

theorem parseDec_natChars (n : Nat) : parseDec (natChars n) = n := by
  unfold natChars
  split_ifs with h
  · subst h; decide
  · rw [natCharsAux_eq n n (le_refl n)]
    unfold parseDec
    rw [parseDec_digit_chars (Nat.digits 10 n)
      (fun d hdm => Nat.digits_lt_base (by norm_num) hdm) 0]
    simp [Nat.ofDigits_digits]

theorem parseDec_replicate_zero (k : Nat) (l : List Char) :
    parseDec (List.replicate k '0' ++ l) = parseDec l := by
  induction k with
  | zero => rfl
  | succ k ih =>
    rw [List.replicate_succ, List.cons_append]
    unfold parseDec
    rw [List.foldl_cons]
    have h0 : 0 * 10 + ('0'.toNat - 48) = 0 := by decide
    rw [h0]
    exact ih

theorem parseDec_zeroPad12 (n : Nat) : parseDec (zeroPad12 n) = n := by
  rw [zeroPad12, parseDec_replicate_zero, parseDec_natChars]

theorem ratFloor_nonneg {q : ℚ} (hq : 0 ≤ q) : 0 ≤ ratFloor q :=
  Int.fdiv_nonneg (Rat.num_nonneg.mpr hq) (Int.natCast_nonneg _)

theorem ratCeil_nonpos {q : ℚ} (hq : q ≤ 0) : ratCeil q ≤ 0 := by
  have := ratFloor_nonneg (neg_nonneg.mpr hq)
  unfold ratCeil
  omega

theorem pyTake_nil (n : Int) : pyTake [] n = [] := by
  unfold pyTake
  split_ifs <;> simp

theorem build_string_of_nonpos (a : List Char) {q : ℚ} (hq : q ≤ 0) :
    String._build_string a q = [] := by
  unfold String._build_string
  have hdiv : q / 64 ≤ 0 := div_nonpos_iff.mpr (Or.inr ⟨hq, by norm_num⟩)
  have hceil := ratCeil_nonpos hdiv
  rw [Int.toNat_of_nonpos hceil]
  simp [pyTake_nil]

/-- C6 (counterexample): the alphabet has 64 hex characters, not 128: for the
string of the concrete key Key(3, 'test', decimal) its length is 64 ≠ 128. -/
theorem c6_alphabet_counterexample :
    (String._build_alphabet
      (Key.string ⟨3, "test".toList, "decimal".toList, false⟩)).length = 64 ∧
    (String._build_alphabet
      (Key.string ⟨3, "test".toList, "decimal".toList, false⟩)).length ≠ 128 := by
  have h : (String._build_alphabet
      (Key.string ⟨3, "test".toList, "decimal".toList, false⟩)).length = 64 := by
    rw [String._build_alphabet, List.length_append, md5Hex_length, md5Hex_length]
  exact ⟨h, by rw [h]; decide⟩

/-- C6 (amended): for every key string the derived alphabet is the
64-hex-character (not 128) string digest(key-string) concatenated with
digest(reverse of key-string); every character is a hex digit, and the
alphabet is a pure function of the key string, so identical key strings
always produce the identical alphabet. -/
theorem c6_alphabet_structure (k : List Char) :
    String._build_alphabet k = md5Hex k ++ md5Hex k.reverse ∧
    (String._build_alphabet k).length = 64 ∧
    ∀ c ∈ String._build_alphabet k, c ∈ "0123456789abcdef".toList := by
  refine ⟨rfl, ?_, ?_⟩
  · rw [String._build_alphabet, List.length_append, md5Hex_length, md5Hex_length]
  · intro c hc
    rw [String._build_alphabet, List.mem_append] at hc
    rcases hc with hc | hc <;> exact mem_hexPad hc

/-- C5 (counterexample): in Deterministic mode (prefix 'n1ql') two calls of
ReverseLookupDocument.next with the identical key under two different states
of the global random source return different documents: _build_alt_email
draws two fresh random offsets on every call, even in Deterministic mode. -/
theorem c5_determinism_counterexample :
    (ReverseLookupDocument.next 512 ("n1ql".toList)
        ⟨3, "test".toList, "decimal".toList, false⟩ rnd0).1 ≠
    (ReverseLookupDocument.next 512 ("n1ql".toList)
        ⟨3, "test".toList, "decimal".toList, false⟩ rnd1).1 := by
  decide

/-- C5 (amended): in Deterministic mode (prefix 'n1ql', is_random = false)
every field of the document except alt_email is a function of the key and
the construction parameters alone: two calls with the identical key agree on
all of them whatever the two states of the global random source; only
alt_email consumes fresh randomness. -/
theorem c5_deterministic_except_alt_email (avg_size : Int) (key : Key)
    (r1 r2 : Rnd) :
    ((ReverseLookupDocument.next avg_size ("n1ql".toList) key r1).1.name =
      (ReverseLookupDocument.next avg_size ("n1ql".toList) key r2).1.name) ∧
    ((ReverseLookupDocument.next avg_size ("n1ql".toList) key r1).1.email =
      (ReverseLookupDocument.next avg_size ("n1ql".toList) key r2).1.email) ∧
    ((ReverseLookupDocument.next avg_size ("n1ql".toList) key r1).1.street =
      (ReverseLookupDocument.next avg_size ("n1ql".toList) key r2).1.street) ∧
    ((ReverseLookupDocument.next avg_size ("n1ql".toList) key r1).1.city =
      (ReverseLookupDocument.next avg_size ("n1ql".toList) key r2).1.city) ∧
    ((ReverseLookupDocument.next avg_size ("n1ql".toList) key r1).1.county =
      (ReverseLookupDocument.next avg_size ("n1ql".toList) key r2).1.county) ∧
    ((ReverseLookupDocument.next avg_size ("n1ql".toList) key r1).1.state =
      (ReverseLookupDocument.next avg_size ("n1ql".toList) key r2).1.state) ∧
    ((ReverseLookupDocument.next avg_size ("n1ql".toList) key r1).1.full_state =
      (ReverseLookupDocument.next avg_size ("n1ql".toList) key r2).1.full_state) ∧
    ((ReverseLookupDocument.next avg_size ("n1ql".toList) key r1).1.country =
      (ReverseLookupDocument.next avg_size ("n1ql".toList) key r2).1.country) ∧
    ((ReverseLookupDocument.next avg_size ("n1ql".toList) key r1).1.realm =
      (ReverseLookupDocument.next avg_size ("n1ql".toList) key r2).1.realm) ∧
    ((ReverseLookupDocument.next avg_size ("n1ql".toList) key r1).1.coins =
      (ReverseLookupDocument.next avg_size ("n1ql".toList) key r2).1.coins) ∧
    ((ReverseLookupDocument.next avg_size ("n1ql".toList) key r1).1.category =
      (ReverseLookupDocument.next avg_size ("n1ql".toList) key r2).1.category) ∧
    ((ReverseLookupDocument.next avg_size ("n1ql".toList) key r1).1.achievements =
      (ReverseLookupDocument.next avg_size ("n1ql".toList) key r2).1.achievements) ∧
    ((ReverseLookupDocument.next avg_size ("n1ql".toList) key r1).1.gmtime =
      (ReverseLookupDocument.next avg_size ("n1ql".toList) key r2).1.gmtime) ∧
    ((ReverseLookupDocument.next avg_size ("n1ql".toList) key r1).1.year =
      (ReverseLookupDocument.next avg_size ("n1ql".toList) key r2).1.year) ∧
    ((ReverseLookupDocument.next avg_size ("n1ql".toList) key r1).1.body =
      (ReverseLookupDocument.next avg_size ("n1ql".toList) key r2).1.body) ∧
    ((ReverseLookupDocument.next avg_size ("n1ql".toList) key r1).1.capped_small =
      (ReverseLookupDocument.next avg_size ("n1ql".toList) key r2).1.capped_small) ∧
    ((ReverseLookupDocument.next avg_size ("n1ql".toList) key r1).1.topics =
      (ReverseLookupDocument.next avg_size ("n1ql".toList) key r2).1.topics) :=
  ⟨rfl, rfl, rfl, rfl, rfl, rfl, rfl, rfl, rfl, rfl, rfl, rfl, rfl, rfl, rfl,
   rfl, rfl⟩

/-- C8: the ReverseLookupDocument body target size is exactly
avg_size - OVERHEAD, and for both cited variants a body built from a target
at or below the variant's OVERHEAD is the empty string: the size floors at
zero and is never negative. -/
theorem c8_body_floors_at_zero (avg1 avg2 : Int) (coeff : ℚ)
    (a pfx : List Char) (key : Key) (r : Rnd)
    (h1 : avg1 ≤ Document.OVERHEAD)
    (h2 : avg2 ≤ ReverseLookupDocument.OVERHEAD) :
    ReverseLookupDocument._size avg2 = avg2 - 420 ∧
    String._build_string a (Document._size avg1 coeff) = [] ∧
    String._build_string a ((ReverseLookupDocument._size avg2 : Int) : ℚ) = [] ∧
    (ReverseLookupDocument.next avg2 pfx key r).1.body = [] := by
  have h5 : ReverseLookupDocument._size avg2 ≤ 0 := by
    unfold ReverseLookupDocument._size ReverseLookupDocument.OVERHEAD at *
    omega
  have h3 : ((ReverseLookupDocument._size avg2 : Int) : ℚ) ≤ 0 :=
    Int.cast_nonpos.mpr h5
  refine ⟨rfl, ?_, build_string_of_nonpos a h3, build_string_of_nonpos _ h3⟩
  have hz : Document._size avg1 coeff = 0 := by
    unfold Document._size
    exact if_pos h1
  rw [hz]
  exact build_string_of_nonpos a le_rfl

/-- Witness for C8 at avg_size = 100 (base Document) and 300
(ReverseLookupDocument). -/
theorem c8_body_floors_at_zero_witness :
    ((100 : Int) ≤ Document.OVERHEAD ∧
     (300 : Int) ≤ ReverseLookupDocument.OVERHEAD) ∧
    (ReverseLookupDocument._size 300 = 300 - 420 ∧
     String._build_string ("ab".toList) (Document._size 100 1) = [] ∧
     String._build_string ("ab".toList)
       ((ReverseLookupDocument._size 300 : Int) : ℚ) = [] ∧
     (ReverseLookupDocument.next 300 ("n1ql".toList) ⟨3, [], [], false⟩ rnd0).1.body = []) :=
  ⟨⟨by decide, by decide⟩,
   c8_body_floors_at_zero 100 300 1 ("ab".toList) ("n1ql".toList)
     ⟨3, [], [], false⟩ rnd0 (by decide) (by decide)⟩

/-- C9: for a JoinedDocument with num_docs ≥ 4, the owner field is exactly
the decimal key formatting of seq_id mod (num_docs // 4); the number it
denotes parses back to seq_id mod (num_docs // 4), which always lies in
[0, num_docs / 4) — a valid identifier, never dangling. -/
theorem c9_joined_owner_valid (pfx : List Char)
    (num_docs num_categories num_replies : Nat) (key : Key) (r : Rnd)
    (h : 4 ≤ num_docs) :
    (JoinedDocument.next pfx num_docs num_categories num_replies key r).1.owner =
      decimal_fmtr (key.number % (num_docs / 4)) pfx ∧
    key.number % (num_docs / 4) < num_docs / 4 ∧
    parseDec (zeroPad12 (key.number % (num_docs / 4))) =
      key.number % (num_docs / 4) := by
  have h4 : 0 < num_docs / 4 := (Nat.one_le_div_iff (by norm_num)).mpr h
  exact ⟨rfl, Nat.mod_lt _ h4, parseDec_zeroPad12 _⟩

/-- Witness for C9 at num_docs = 10 and key number 7. -/
theorem c9_joined_owner_valid_witness :
    4 ≤ 10 ∧
    ((JoinedDocument.next ['j'] 10 3 2 ⟨7, ['t'], [], false⟩ rnd0).1.owner =
       decimal_fmtr (7 % (10 / 4)) ['j'] ∧
     7 % (10 / 4) < 10 / 4 ∧
     parseDec (zeroPad12 (7 % (10 / 4))) = 7 % (10 / 4)) :=
  ⟨by decide,
   c9_joined_owner_valid ['j'] 10 3 2 ⟨7, ['t'], [], false⟩ rnd0 (by decide)⟩

end Spring
